import Mathlib

/-!
Shallow embedding of the `errors` Go package: error variants (`fundamental`,
`withStack`, `withMessage`), chain operations (`Stack`, `Cause`), stack-frame
capture and formatting (`Frame`, `StackTrace`, `callers`), and the remapping
dispatcher (`Remap` and its rule constructors).

Nondeterministic runtime inputs are passed explicitly:
  * the native call stack at a capture point is a `List Frame` parameter
    (innermost frame first, the way `runtime.Callers` reports it);
  * the program's symbol table (`runtime.FuncForPC` plus `FileLine`) is a
    `SymTab` function from program counters to optional function metadata;
  * `fmt.Sprintf` results reaching `Errorf` / `Wrapf` / `WithMessagef` /
    `ErrConstantWrap` are passed as the already-formatted string.
Go `error` interface values are `Option GoErr`, with `none` for the nil
interface value.
-/

namespace GoErrors

/-- Sentinel string used by the package for unresolvable frames. -/
def unknown : String := "unknown"

/-- Metadata the Go runtime resolves for a program counter: source file,
line and qualified function name (`fn.FileLine`, `fn.Name`). -/
structure FuncMeta where
  file : String
  line : Nat
  name : String
deriving DecidableEq

/-- Abstraction of the process symbol table: maps a program counter to the
function metadata, or `none` when `runtime.FuncForPC` returns nil. -/
def SymTab : Type := Nat → Option FuncMeta

/-- Width of `uintptr` on the targeted platforms. -/
def uintptrMod : Nat := 2 ^ 64

/-- `Frame` stores, per the source comment, the program counter plus one. -/
structure Frame where
  pc1 : Nat
deriving DecidableEq

/-- Program counter of a frame: stored value minus one, with `uintptr`
wrap-around (so `Frame 0` yields the maximal pointer, which resolves to no
function). -/
def Frame.pc (f : Frame) : Nat := (f.pc1 + (uintptrMod - 1)) % uintptrMod

/-- `Frame.FuncInfo`: resolve a frame to (file, line, name), or the
`unknown` sentinel triple (with line 0) when the pc resolves to no
function. -/
def Frame.FuncInfo (tab : SymTab) (f : Frame) : String × Nat × String :=
  match tab f.pc with
  | none => (unknown, 0, unknown)
  | some m => (m.file, m.line, m.name)

/-- Go `path.Base`: last slash-separated element of the path, after dropping
trailing slashes; `"."` for the empty string, `"/"` for all-slash strings. -/
def pathBase (s : String) : String :=
  if s.data = [] then "."
  else
    let t := s.data.reverse.dropWhile (fun c => c = '/')
    if t = [] then "/"
    else String.mk (t.takeWhile (fun c => c ≠ '/')).reverse

/-- `funcname`: drop everything up to the last `/`, then everything up to and
including the first `.` of the remainder (the package path and package name
of a qualified Go function name). -/
def funcname (name : String) : String :=
  let t := (name.data.reverse.takeWhile (fun c => c ≠ '/')).reverse
  if t.contains '.' then String.mk (t.dropWhile (fun c => c ≠ '.')).tail
  else String.mk t

/-- Formatting verbs handled by `Frame.Format` (`%s`, `%v`, `%d`, `%n`); the
error variants' `Format` methods handle only `s` and `v` of these. The `%q`
verb and the `#` flag are outside the scope of this development. -/
inductive Verb where
  | s
  | v
  | d
  | n
deriving DecidableEq

/-- `Frame.Format`: `s` renders the base file name, or with the plus flag the
function name, newline, tab and full path (just `unknown` when unresolved);
`d` the line number; `n` the bare function name; `v` the `s` form, a colon,
and the `d` form. -/
def Frame.format (tab : SymTab) (f : Frame) (verb : Verb) (plus : Bool) : String :=
  match f.FuncInfo tab with
  | (file, line, name) =>
    let sForm : String :=
      if plus then (if file = unknown then file else name ++ "\n\t" ++ file)
      else pathBase file
    match verb with
    | .s => sForm
    | .d => Nat.repr line
    | .n => funcname name
    | .v => sForm ++ ":" ++ Nat.repr line

/-- `Frame.MarshalText`: `"<name> <file>:<line>"`, or the `unknown` sentinel
alone when the resolved name is the sentinel. The Go method never returns an
error, so the result is just the string. -/
def Frame.marshalText (tab : SymTab) (f : Frame) : String :=
  match f.FuncInfo tab with
  | (file, line, name) =>
    if name = unknown then name
    else name ++ " " ++ file ++ ":" ++ Nat.repr line

/-- Stack of frames, innermost (newest) first. -/
abbrev StackTrace : Type := List Frame

/-- The `%+v` rendering of a stack trace: each frame's `%+v` form followed by
a newline. -/
def StackTrace.formatPlus (tab : SymTab) (st : StackTrace) : String :=
  String.join (st.map fun f => f.format tab .v true ++ "\n")

/-- `StackTrace.formatSlice`: bracketed, space-separated frame renderings,
used for the non-plus `%s` and `%v` verbs. -/
def StackTrace.formatSlice (tab : SymTab) (st : StackTrace) (verb : Verb) : String :=
  "[" ++ String.intercalate " " (st.map fun f => f.format tab verb false) ++ "]"

/-- `StackTrace.Format` for the `s` and `v` verbs (the `#` flag's Go-syntax
rendering is out of scope): plus `v` is the newline-terminated detailed
listing, otherwise the bracketed slice form. -/
def StackTrace.format (tab : SymTab) (st : StackTrace) (verb : Verb) (plus : Bool) : String :=
  match verb, plus with
  | .v, true => st.formatPlus tab
  | .v, false => st.formatSlice tab .v
  | .s, _ => st.formatSlice tab .s
  | _, _ => ""

/-- Maximum stack depth recorded by `callers`. -/
def depth : Nat := 32

/-- Frames skipped by `callers` so that only calls outside the package are
recorded. -/
def defaultSkip : Nat := 2

/-- `callers`: record up to `depth` program counters of the current call
stack, skipping the `defaultSkip + extraSkip` innermost frames. The ambient
call stack (innermost first, starting at the `runtime.Callers` frame) is the
explicit `callStack` parameter. -/
def callers (callStack : List Frame) (extraSkip : Nat) : StackTrace :=
  (callStack.drop (defaultSkip + extraSkip)).take depth

/-- Go error values as seen by this package: the three library variants, plus
foreign errors without (`foreign`) or with (`foreignU`) an `Unwrap` method.
Foreign errors carry a tag naming their Go dynamic type, for
`reflect.TypeOf` comparisons and type assertions; `foreignU` is a foreign
error whose `Unwrap` returns the non-nil `inner`, while `foreignUNil` has an
`Unwrap` method that returns nil. -/
inductive GoErr where
  | fundamental (msg : String) (stack : StackTrace)
  | withStack (inner : GoErr) (stack : StackTrace)
  | withMessage (cause : GoErr) (msg : String)
  | foreign (ty : String) (msg : String)
  | foreignU (ty : String) (msg : String) (inner : GoErr)
  | foreignUNil (ty : String) (msg : String)
deriving DecidableEq

/-- The `Error()` method of each variant: `fundamental` returns its message,
`withStack` delegates to the embedded error, `withMessage` returns
`msg + ": " + cause.Error()`; foreign errors return their own message. -/
def GoErr.errMsg : GoErr → String
  | .fundamental m _ => m
  | .withStack e _ => e.errMsg
  | .withMessage c m => m ++ ": " ++ c.errMsg
  | .foreign _ m => m
  | .foreignU _ m _ => m
  | .foreignUNil _ m => m

/-- Result of the standard-library `errors.Unwrap`: `none` when the variant
has no `Unwrap` method (`fundamental`, `foreign`) or its `Unwrap` returns
nil. -/
def GoErr.unwrapGo : GoErr → Option GoErr
  | .fundamental _ _ => none
  | .withStack e _ => some e
  | .withMessage c _ => some c
  | .foreign _ _ => none
  | .foreignU _ _ inner => some inner
  | .foreignUNil _ _ => none

/-- Whether the variant's dynamic type has an `Unwrap() error` method (the
capability check Cause performs with a type assertion). -/
def GoErr.hasUnwrapMethod : GoErr → Bool
  | .fundamental _ _ => false
  | .withStack _ _ => true
  | .withMessage _ _ => true
  | .foreign _ _ => false
  | .foreignU _ _ _ => true
  | .foreignUNil _ _ => true

/-- The `stackTrace()` capability: only `fundamental` and `withStack` carry a
stack of their own. -/
def GoErr.stackCap : GoErr → Option StackTrace
  | .fundamental _ st => some st
  | .withStack _ st => some st
  | _ => none

/-- Dynamic Go type of an error value, as a tag: the three library variants
have their fixed pointer types; foreign errors carry their tag. -/
def GoErr.dynType : GoErr → String
  | .fundamental _ _ => "*errors.fundamental"
  | .withStack _ _ => "*errors.withStack"
  | .withMessage _ _ => "*errors.withMessage"
  | .foreign ty _ => ty
  | .foreignU ty _ _ => ty
  | .foreignUNil ty _ => ty

/-- `reflect.TypeOf` on an interface value: nil for the nil interface,
otherwise the dynamic type. -/
def reflectTypeOf : Option GoErr → Option String :=
  Option.map GoErr.dynType

/-- Recursion of `Stack` on a non-nil error: return the error's own stack if
it has the `stackTrace()` capability, else recurse on `errors.Unwrap` (which
is nil for variants without an `Unwrap` method, ending the walk). -/
def stackAux : GoErr → Option StackTrace
  | .fundamental _ st => some st
  | .withStack _ st => some st
  | .withMessage c _ => stackAux c
  | .foreign _ _ => none
  | .foreignU _ _ e => stackAux e
  | .foreignUNil _ _ => none

/-- `Stack`: stack trace of the first error in the chain carrying one, nil in
nil out. -/
def Stack : Option GoErr → Option StackTrace
  | none => none
  | some e => stackAux e

/-- Loop body of `Cause`: keep taking `Unwrap` while the current error has
the capability and its `Unwrap` is non-nil. -/
def causeAux : GoErr → GoErr
  | .fundamental m st => .fundamental m st
  | .withStack e _ => causeAux e
  | .withMessage c _ => causeAux c
  | .foreign ty m => .foreign ty m
  | .foreignU _ _ e => causeAux e
  | .foreignUNil ty m => .foreignUNil ty m

/-- `Cause`: deepest error of the chain; nil in, nil out. -/
def Cause : Option GoErr → Option GoErr
  | none => none
  | some e => some (causeAux e)

/-- `newFundamental`: a `fundamental` with the given text and a stack
captured with one extra skipped frame for `newFundamental` itself. -/
def newFundamental (cs : List Frame) (text : String) (extraSkip : Nat) : GoErr :=
  .fundamental text (callers cs (1 + extraSkip))

/-- `New`: fundamental error with a freshly captured stack. -/
def New (cs : List Frame) (text : String) : GoErr := newFundamental cs text 1

/-- `Errorf`: same as `New`, the `fmt.Sprintf` result passed pre-formatted. -/
def Errorf (cs : List Frame) (formatted : String) : GoErr :=
  newFundamental cs formatted 1

/-- `wStack`: nil-propagating; wraps in a `withStack` with a fresh stack. -/
def wStack (cs : List Frame) (err : Option GoErr) (extraSkip : Nat) : Option GoErr :=
  match err with
  | none => none
  | some e => some (.withStack e (callers cs (1 + extraSkip)))

/-- `WithStack`: annotate with a fresh stack unconditionally; nil in, nil
out. -/
def WithStack (cs : List Frame) (err : Option GoErr) : Option GoErr :=
  wStack cs err 1

/-- `wMessage`: nil-propagating message annotation, no stack capture. -/
def wMessage (err : Option GoErr) (message : String) : Option GoErr :=
  match err with
  | none => none
  | some e => some (.withMessage e message)

/-- `WithMessage`: message annotation, nil in, nil out. -/
def WithMessage (err : Option GoErr) (message : String) : Option GoErr :=
  wMessage err message

/-- `WithMessagef`: like `WithMessage`, message passed pre-formatted. -/
def WithMessagef (err : Option GoErr) (formatted : String) : Option GoErr :=
  wMessage err formatted

/-- `wrap`: nil-propagating; annotate with the message, then capture a stack
only when the resulting chain carries none. -/
def wrap (cs : List Frame) (err : Option GoErr) (message : String) (extraSkip : Nat) :
    Option GoErr :=
  match err with
  | none => none
  | some e =>
    let e2 : GoErr := .withMessage e message
    if (Stack (some e2)).isSome then some e2
    else some (.withStack e2 (callers cs (1 + extraSkip)))

/-- `Wrap`: message annotation plus conditional stack capture; nil in, nil
out. -/
def Wrap (cs : List Frame) (err : Option GoErr) (message : String) : Option GoErr :=
  wrap cs err message 1

/-- `Wrapf`: like `Wrap`, message passed pre-formatted. -/
def Wrapf (cs : List Frame) (err : Option GoErr) (formatted : String) : Option GoErr :=
  wrap cs err formatted 1

/-- The variants' `Format` methods for the `s` and `v` verbs; `d` and `n`
write nothing for the library variants, and foreign errors print via their
`Error()` method. Plus-flagged `v` renders the message followed by the
chain's stack listing, per each variant's `Format`. -/
def formatGo (tab : SymTab) : GoErr → Verb → Bool → String
  | _, .d, _ => ""
  | _, .n, _ => ""
  | .fundamental m st, .v, true => m ++ "\n" ++ StackTrace.formatPlus tab st
  | .fundamental m _, .v, false => m
  | .fundamental m _, .s, _ => m
  | .withStack e st, .v, true => formatGo tab e .v true ++ "\n" ++ StackTrace.formatPlus tab st
  | .withStack e st, .v, false => (GoErr.withStack e st).errMsg
  | .withStack e st, .s, _ => (GoErr.withStack e st).errMsg
  | .withMessage c m, .v, true => m ++ ": " ++ formatGo tab c .v true
  | .withMessage c m, .v, false => (GoErr.withMessage c m).errMsg
  | .withMessage c m, .s, _ => (GoErr.withMessage c m).errMsg
  | .foreign _ m, _, _ => m
  | .foreignU _ m _, _, _ => m
  | .foreignUNil _ m, _, _ => m

/-- `ErrConverter`: converts one error into a different one. -/
abbrev ErrConverter : Type := Option GoErr → Option GoErr

/-- `ConstConverter`: converter ignoring its input. -/
def ConstConverter (err : Option GoErr) : ErrConverter := fun _ => err

/-- `ErrRemapperFunc`: returns the replacement error and whether the input
matched the rule. -/
abbrev ErrRemapperFunc : Type := Option GoErr → Option GoErr × Bool

/-- `Remap`: first rule reporting a match determines the result; the input
error is returned unchanged when no rule matches. -/
def Remap (err : Option GoErr) : List ErrRemapperFunc → Option GoErr
  | [] => err
  | r :: rest =>
    match r err with
    | (e, true) => e
    | (_, false) => Remap err rest

/-- `ValueRemapperFunc`: matches on Go interface equality with a fixed
sentinel error (modelled as structural equality of the embedded values). -/
def ValueRemapperFunc (comparedErr : Option GoErr) (converter : ErrConverter) :
    ErrRemapperFunc :=
  fun err => if err = comparedErr then (converter err, true) else (none, false)

/-- `ValueRemapper`: identity-match rule with a constant replacement. -/
def ValueRemapper (comparedErr convertTo : Option GoErr) : ErrRemapperFunc :=
  ValueRemapperFunc comparedErr (ConstConverter convertTo)

/-- `TypeRemapperLegacyF`: compares `reflect.TypeOf` of the candidate with
`reflect.TypeOf` of the sample error captured at construction. -/
def TypeRemapperLegacyF (T : Option GoErr) (converter : ErrConverter) :
    ErrRemapperFunc :=
  let t := reflectTypeOf T
  fun err => if reflectTypeOf err = t then (converter err, true) else (none, false)

/-- `TypeRemapperLegacy`: reflection-based type match with a constant
replacement. -/
def TypeRemapperLegacy (T convertTo : Option GoErr) : ErrRemapperFunc :=
  TypeRemapperLegacyF T (ConstConverter convertTo)

/-- `TypeRemapperFunc`: the generic variant instantiated at a concrete error
type, identified by its dynamic-type tag; the `err.(T)` assertion succeeds
exactly when the candidate is non-nil and its dynamic type is the tag. -/
def TypeRemapperFunc (tag : String) (converter : ErrConverter) : ErrRemapperFunc :=
  fun err =>
    match err with
    | some e => if e.dynType = tag then (converter err, true) else (none, false)
    | none => (none, false)

/-- `TypeRemapper`: generic type match with a constant replacement. -/
def TypeRemapper (tag : String) (convertTo : Option GoErr) : ErrRemapperFunc :=
  TypeRemapperFunc tag (ConstConverter convertTo)

/-- `ErrConstantWrap`: terminal rule; always reports a match and wraps the
error through `wrap` (so nil stays nil and a stack is captured only when the
chain has none). -/
def ErrConstantWrap (cs : List Frame) (formatted : String) : ErrRemapperFunc :=
  fun err => (wrap cs err formatted 1, true)

/-- Causal chain of an error, outermost first, following `errors.Unwrap`
until an error with no further cause. -/
def chainList : GoErr → List GoErr
  | .fundamental m st => [.fundamental m st]
  | .withStack e st => .withStack e st :: chainList e
  | .withMessage c m => .withMessage c m :: chainList c
  | .foreign ty m => [.foreign ty m]
  | .foreignU ty m e => .foreignU ty m e :: chainList e
  | .foreignUNil ty m => [.foreignUNil ty m]

/-- Whether an error terminates a causal walk: it has no `Unwrap` method, or
its `Unwrap` returns nil. -/
def hasNoFurtherCause (e : GoErr) : Bool :=
  !e.hasUnwrapMethod || e.unwrapGo.isNone

/-- Every stack stored anywhere inside the error value has length at most
`n`. -/
def stacksBounded (n : Nat) : GoErr → Bool
  | .fundamental _ st => st.length ≤ n
  | .withStack e st => (st.length ≤ n) && stacksBounded n e
  | .withMessage c _ => stacksBounded n c
  | .foreign _ _ => true
  | .foreignU _ _ e => stacksBounded n e
  | .foreignUNil _ _ => true

/-- Helper: a non-nil `wrap` result is `some` of an error whose message is
the annotated composition. -/
theorem wrap_shape (cs : List Frame) (e : GoErr) (m : String) (k : Nat) :
    ∃ e', wrap cs (some e) m k = some e' ∧ e'.errMsg = m ++ ": " ++ e.errMsg := by
  simp only [wrap]
  split
  · exact ⟨_, rfl, rfl⟩
  · exact ⟨_, rfl, rfl⟩

/-- Helper: the message of a non-nil `wrap` result. -/
theorem wrap_errMsg (cs : List Frame) (e : GoErr) (m : String) (k : Nat) :
    Option.map GoErr.errMsg (wrap cs (some e) m k) = some (m ++ ": " ++ e.errMsg) := by
  obtain ⟨e', he, hm⟩ := wrap_shape cs e m k
  rw [he, Option.map_some', hm]

/-- Helper: when the chain already carries a stack, `wrap` returns the bare
`withMessage`. -/
theorem wrap_pos (cs : List Frame) (e : GoErr) (m : String) (k : Nat)
    (h : (stackAux e).isSome = true) :
    wrap cs (some e) m k = some (GoErr.withMessage e m) := by
  simp [wrap, Stack, stackAux, h]

/-- Helper: when the chain has no stack, `wrap` adds a `withStack` layer with
a fresh capture. -/
theorem wrap_neg (cs : List Frame) (e : GoErr) (m : String) (k : Nat)
    (h : (stackAux e).isSome = false) :
    wrap cs (some e) m k =
      some (GoErr.withStack (GoErr.withMessage e m) (callers cs (1 + k))) := by
  simp [wrap, Stack, stackAux, h]

/-- Claim C1: for non-nil `err`, `Wrap(err, msg).Error()` is
`msg ++ ": " ++ err.Error()`, composing transitively through nested wraps,
and the `%s` and non-plus `%v` renderings of every variant equal `Error()`. -/
theorem C1_wrap_message_text (cs cs2 : List Frame) (e root : GoErr)
    (m innerMsg outerMsg : String) (tab : SymTab) (plus : Bool) :
    Option.map GoErr.errMsg (Wrap cs (some e) m) = some (m ++ ": " ++ e.errMsg)
    ∧ Option.map GoErr.errMsg (Wrap cs2 (Wrap cs (some root) innerMsg) outerMsg)
        = some (outerMsg ++ ": " ++ (innerMsg ++ ": " ++ root.errMsg))
    ∧ formatGo tab e .s plus = e.errMsg
    ∧ formatGo tab e .v false = e.errMsg := by
  refine ⟨wrap_errMsg cs e m 1, ?_, ?_, ?_⟩
  · obtain ⟨e', he, hm⟩ := wrap_shape cs root innerMsg 1
    rw [Wrap, Wrap, he]
    rw [wrap_errMsg cs2 e' outerMsg 1, hm]
  · cases e <;> simp [formatGo, GoErr.errMsg]
  · cases e <;> simp [formatGo, GoErr.errMsg]

/-- Claim C2: `Wrap` always yields a chain with a stack, and when the wrapped
error already has one, no second stack is captured: the looked-up stack is
the original one. -/
theorem C2_wrap_stack_dedup (cs : List Frame) (e : GoErr) (m : String) :
    (Stack (Wrap cs (some e) m)).isSome = true
    ∧ ((Stack (some e)).isSome = true → Stack (Wrap cs (some e) m) = Stack (some e)) := by
  cases h : (stackAux e).isSome with
  | true =>
      rw [Wrap, wrap_pos cs e m 1 h]
      exact ⟨h, fun _ => rfl⟩
  | false =>
      rw [Wrap, wrap_neg cs e m 1 h]
      constructor
      · rfl
      · intro hc
        rw [show Stack (some e) = stackAux e from rfl, h] at hc
        exact absurd hc (by simp)

/-- Witness for C2 at `err = New("x")` on an empty ambient call stack. -/
theorem C2_wrap_stack_dedup_witness :
    (Stack (Wrap [] (some (New [] "x")) "m")).isSome = true
    ∧ Stack (Wrap [] (some (New [] "x")) "m") = Stack (some (New [] "x")) :=
  ⟨(C2_wrap_stack_dedup [] (New [] "x") "m").1,
   (C2_wrap_stack_dedup [] (New [] "x") "m").2 rfl⟩

/-- Claim C3 (counterexample): `Remap(nil, rules)` is not nil for every rule
list — a rule that matches nil with a non-nil replacement makes `Remap`
return that replacement. -/
theorem C3_remap_nil_counterexample :
    Remap none [fun _ => (some (GoErr.foreign "T" "boom"), true)] =
      some (GoErr.foreign "T" "boom")
    ∧ Remap none [fun _ => (some (GoErr.foreign "T" "boom"), true)] ≠ none := by
  refine ⟨rfl, ?_⟩
  simp [Remap]

/-- Claim C3 (amended): `Wrap`, `WithMessage` and `WithStack` propagate nil
unconditionally, and `Remap(nil, rules)` is nil provided every rule that
matches nil returns a nil replacement (as the built-in constructors with
non-nil targets do); an arbitrary custom rule may map nil elsewhere. -/
theorem C3_nil_propagation (cs : List Frame) (m : String)
    (rules : List ErrRemapperFunc)
    (h : ∀ r ∈ rules, (r none).2 = true → (r none).1 = none) :
    Wrap cs none m = none ∧ WithMessage none m = none ∧ WithStack cs none = none
    ∧ Remap none rules = none := by
  refine ⟨rfl, rfl, rfl, ?_⟩
  induction rules with
  | nil => rfl
  | cons r rest ih =>
      have hrest : ∀ q ∈ rest, (q none).2 = true → (q none).1 = none :=
        fun q hq => h q (List.mem_cons_of_mem r hq)
      rcases hb : r none with ⟨e, b⟩
      cases b with
      | false =>
          have hstep : Remap none (r :: rest) = Remap none rest := by
            simp only [Remap, hb]
          rw [hstep]
          exact ih hrest
      | true =>
          have h2 := h r (List.mem_cons_self r rest) (by rw [hb])
          rw [hb] at h2
          have hstep : Remap none (r :: rest) = e := by
            simp only [Remap, hb]
          rw [hstep]
          exact h2

/-- Witness for C3's amended statement, with `ErrConstantWrap` as the sole
(terminal) rule. -/
theorem C3_nil_propagation_witness :
    Wrap [] none "m" = none ∧ WithMessage none "m" = none
    ∧ WithStack [] none = none
    ∧ Remap none [ErrConstantWrap [] "ctx"] = none :=
  C3_nil_propagation [] "m" [ErrConstantWrap [] "ctx"] (by
    intro r hr _
    simp only [List.mem_singleton] at hr
    subst hr
    rfl)

/-- Helper: an unmatched rule at the head of the list is skipped. -/
theorem Remap_cons_of_not_matched (err : Option GoErr) (q : ErrRemapperFunc)
    (rest : List ErrRemapperFunc) (h : (q err).2 = false) :
    Remap err (q :: rest) = Remap err rest := by
  rcases hb : q err with ⟨e, b⟩
  cases b with
  | false => simp only [Remap, hb]
  | true =>
      rw [hb] at h
      exact absurd h (by simp)

/-- Helper: a matched rule at the head of the list decides the result. -/
theorem Remap_cons_of_matched (err : Option GoErr) (q : ErrRemapperFunc)
    (rest : List ErrRemapperFunc) (h : (q err).2 = true) :
    Remap err (q :: rest) = (q err).1 := by
  rcases hb : q err with ⟨e, b⟩
  cases b with
  | false =>
      rw [hb] at h
      exact absurd h (by simp)
  | true => simp only [Remap, hb]

/-- Claim C4: `Remap` evaluates rules in order — the first rule reporting a
match determines the result, exactly as the rule produced it, and when no
rule matches the error is returned unchanged. -/
theorem C4_remap_first_match (err : Option GoErr)
    (pre post rules : List ErrRemapperFunc) (r : ErrRemapperFunc) :
    ((∀ q ∈ pre, (q err).2 = false) → (r err).2 = true →
      Remap err (pre ++ r :: post) = (r err).1)
    ∧ ((∀ q ∈ rules, (q err).2 = false) → Remap err rules = err) := by
  constructor
  · intro hpre hr
    induction pre with
    | nil => simpa using Remap_cons_of_matched err r post hr
    | cons q pre' ih =>
        rw [List.cons_append,
          Remap_cons_of_not_matched err q (pre' ++ r :: post)
            (hpre q (List.mem_cons_self q pre'))]
        exact ih (fun q' hq' => hpre q' (List.mem_cons_of_mem q hq'))
  · intro hnone
    induction rules with
    | nil => rfl
    | cons q rest ih =>
        rw [Remap_cons_of_not_matched err q rest (hnone q (List.mem_cons_self q rest))]
        exact ih (fun q' hq' => hnone q' (List.mem_cons_of_mem q hq'))

/-- Witness for C4 on a concrete foreign error with one unmatched rule before
the matching rule. -/
theorem C4_remap_first_match_witness :
    Remap (some (GoErr.foreign "E" "x"))
      ([fun _ => (none, false)] ++
        (fun _ => (some (GoErr.foreign "Y" "y"), true)) :: []) =
      some (GoErr.foreign "Y" "y")
    ∧ Remap (some (GoErr.foreign "E" "x")) [fun _ => (none, false)] =
      some (GoErr.foreign "E" "x") := by
  constructor
  · exact
      (C4_remap_first_match (some (GoErr.foreign "E" "x"))
        [fun _ => (none, false)] [] [fun _ => (none, false)]
        (fun _ => (some (GoErr.foreign "Y" "y"), true))).1
        (by intro q hq; simp only [List.mem_singleton] at hq; subst hq; rfl) rfl
  · exact
      (C4_remap_first_match (some (GoErr.foreign "E" "x"))
        [fun _ => (none, false)] [] [fun _ => (none, false)]
        (fun _ => (some (GoErr.foreign "Y" "y"), true))).2
        (by intro q hq; simp only [List.mem_singleton] at hq; subst hq; rfl)

/-- Helper: causal chains are never empty. -/
theorem chainList_ne_nil (e : GoErr) : chainList e ≠ [] := by
  cases e <;> simp [chainList]

/-- Helper: `getLast?` skips a cons onto a nonempty list. -/
theorem getLast?_cons_of_ne_nil {α : Type} (a : α) {l : List α} (h : l ≠ []) :
    (a :: l).getLast? = l.getLast? := by
  obtain ⟨x, l', rfl⟩ := List.exists_cons_of_ne_nil h
  rfl

/-- Helper: the last element of the causal chain is the `Cause` loop's
result. -/
theorem chainList_getLast (e : GoErr) :
    (chainList e).getLast? = some (causeAux e) := by
  induction e with
  | fundamental m st => rfl
  | withStack inner st ih =>
      rw [chainList, getLast?_cons_of_ne_nil _ (chainList_ne_nil inner), ih]
      simp [causeAux]
  | withMessage c m ih =>
      rw [chainList, getLast?_cons_of_ne_nil _ (chainList_ne_nil c), ih]
      simp [causeAux]
  | foreign ty m => rfl
  | foreignU ty m inner ih =>
      rw [chainList, getLast?_cons_of_ne_nil _ (chainList_ne_nil inner), ih]
      simp [causeAux]
  | foreignUNil ty m => rfl

/-- Helper: the `Cause` loop stops at an error with no further cause. -/
theorem hasNoFurtherCause_causeAux (e : GoErr) :
    hasNoFurtherCause (causeAux e) = true := by
  induction e with
  | fundamental m st => rfl
  | withStack inner st ih => simpa [causeAux] using ih
  | withMessage c m ih => simpa [causeAux] using ih
  | foreign ty m => rfl
  | foreignU ty m inner ih => simpa [causeAux] using ih
  | foreignUNil ty m => rfl

/-- Claim C5: `Cause` is nil on nil, returns the last element of the causal
chain — an error with no further cause — and on the doubly wrapped `New`
returns the original fundamental error value. -/
theorem C5_cause_deepest (e : GoErr) (cs0 cs1 cs2 : List Frame) (a b : String) :
    Cause none = none
    ∧ Cause (some e) = (chainList e).getLast?
    ∧ hasNoFurtherCause (causeAux e) = true
    ∧ Cause (Wrap cs2 (Wrap cs1 (some (New cs0 "root")) a) b) = some (New cs0 "root") := by
  refine ⟨rfl, ?_, hasNoFurtherCause_causeAux e, ?_⟩
  · rw [chainList_getLast]
    rfl
  · have h1 : Wrap cs1 (some (New cs0 "root")) a =
        some (GoErr.withMessage (New cs0 "root") a) := wrap_pos cs1 _ a 1 rfl
    have h2 : Wrap cs2 (some (GoErr.withMessage (New cs0 "root") a)) b =
        some (GoErr.withMessage (GoErr.withMessage (New cs0 "root") a) b) :=
      wrap_pos cs2 _ b 1 rfl
    rw [h1, h2]
    rfl

/-- Helper: the `Stack` recursion returns the first stack-capable error's
stack along the causal chain. -/
theorem stackAux_eq_findSome (e : GoErr) :
    stackAux e = (chainList e).findSome? GoErr.stackCap := by
  induction e <;>
    simp [chainList, stackAux, GoErr.stackCap, List.findSome?_cons, *]

/-- Claim C6: `Stack` walks the chain outward and returns the first carried
stack; it is absent on nil and when no error of the chain carries one. -/
theorem C6_stack_first_carrier (e : GoErr) :
    Stack none = none
    ∧ Stack (some e) = (chainList e).findSome? GoErr.stackCap
    ∧ ((∀ x ∈ chainList e, x.stackCap = none) → Stack (some e) = none) := by
  refine ⟨rfl, stackAux_eq_findSome e, ?_⟩
  intro h
  rw [show Stack (some e) = stackAux e from rfl, stackAux_eq_findSome e]
  simp only [List.findSome?_eq_none_iff]
  exact h

/-- Witness for C6 on a foreign stackless error. -/
theorem C6_stack_first_carrier_witness :
    Stack (some (GoErr.foreign "E" "x")) =
      (chainList (GoErr.foreign "E" "x")).findSome? GoErr.stackCap
    ∧ Stack (some (GoErr.foreign "E" "x")) = none :=
  ⟨(C6_stack_first_carrier (GoErr.foreign "E" "x")).2.1,
   (C6_stack_first_carrier (GoErr.foreign "E" "x")).2.2 (by
      intro x hx
      simp only [chainList, List.mem_singleton] at hx
      subst hx
      rfl)⟩

/-- Claim C7: both type-match rule constructors match exactly on dynamic-type
equality with the fixed target type and convert through the supplied
converter (or the fixed replacement). -/
theorem C7_type_match_rules (T err : Option GoErr) (tag : String)
    (conv : ErrConverter) (convertTo : Option GoErr) :
    ((TypeRemapperLegacyF T conv err).2 = true ↔ reflectTypeOf err = reflectTypeOf T)
    ∧ (reflectTypeOf err = reflectTypeOf T →
        TypeRemapperLegacyF T conv err = (conv err, true))
    ∧ ((TypeRemapperFunc tag conv err).2 = true ↔ reflectTypeOf err = some tag)
    ∧ (reflectTypeOf err = some tag → TypeRemapperFunc tag conv err = (conv err, true))
    ∧ (reflectTypeOf err = some tag → TypeRemapper tag convertTo err = (convertTo, true)) := by
  refine ⟨?_, ?_, ?_, ?_, ?_⟩
  · simp only [TypeRemapperLegacyF]
    split <;> simp [*]
  · intro h
    simp [TypeRemapperLegacyF, h]
  · cases err with
    | none => simp [TypeRemapperFunc, reflectTypeOf]
    | some e =>
        simp only [TypeRemapperFunc, reflectTypeOf, Option.map_some']
        split <;> simp [*]
  · intro h
    cases err with
    | none => simp [reflectTypeOf] at h
    | some e =>
        simp only [reflectTypeOf, Option.map_some', Option.some.injEq] at h
        simp [TypeRemapperFunc, h]
  · intro h
    cases err with
    | none => simp [reflectTypeOf] at h
    | some e =>
        simp only [reflectTypeOf, Option.map_some', Option.some.injEq] at h
        simp [TypeRemapper, TypeRemapperFunc, ConstConverter, h]

/-- Witness for C7 on foreign errors sharing the dynamic type tag "E". -/
theorem C7_type_match_rules_witness :
    TypeRemapperLegacyF (some (GoErr.foreign "E" "x")) (fun e => e)
        (some (GoErr.foreign "E" "y")) = (some (GoErr.foreign "E" "y"), true)
    ∧ TypeRemapperFunc "E" (fun e => e) (some (GoErr.foreign "E" "y")) =
        (some (GoErr.foreign "E" "y"), true)
    ∧ TypeRemapper "E" (some (GoErr.foreign "Z" "z")) (some (GoErr.foreign "E" "y")) =
        (some (GoErr.foreign "Z" "z"), true) :=
  ⟨(C7_type_match_rules (some (GoErr.foreign "E" "x")) (some (GoErr.foreign "E" "y"))
      "E" (fun e => e) (some (GoErr.foreign "Z" "z"))).2.1 rfl,
   (C7_type_match_rules (some (GoErr.foreign "E" "x")) (some (GoErr.foreign "E" "y"))
      "E" (fun e => e) (some (GoErr.foreign "Z" "z"))).2.2.2.1 rfl,
   (C7_type_match_rules (some (GoErr.foreign "E" "x")) (some (GoErr.foreign "E" "y"))
      "E" (fun e => e) (some (GoErr.foreign "Z" "z"))).2.2.2.2 rfl⟩

/-- Helper: a capture is never longer than the depth limit. -/
theorem callers_length (cs : List Frame) (k : Nat) : (callers cs k).length ≤ depth :=
  List.length_take_le _ _

/-- Claim C8: every capture point records at most 32 frames, dropping only
the oldest callers beyond the limit, and every error built by `New`,
`Errorf`, `WithStack` or `Wrap` keeps all its stored stacks within the
bound. -/
theorem C8_capture_depth_bound (cs : List Frame) (k : Nat) (t m : String) (e : GoErr)
    (he : stacksBounded depth e = true) :
    (callers cs k).length ≤ depth
    ∧ (∃ rest, cs.drop (defaultSkip + k) = callers cs k ++ rest)
    ∧ stacksBounded depth (New cs t) = true
    ∧ stacksBounded depth (Errorf cs t) = true
    ∧ (∀ e', WithStack cs (some e) = some e' → stacksBounded depth e' = true)
    ∧ (∀ e', Wrap cs (some e) m = some e' → stacksBounded depth e' = true) := by
  refine ⟨callers_length cs k,
    ⟨(cs.drop (defaultSkip + k)).drop depth, (List.take_append_drop depth _).symm⟩,
    ?_, ?_, ?_, ?_⟩
  · simp only [New, newFundamental, stacksBounded, decide_eq_true_eq]
    exact callers_length cs _
  · simp only [Errorf, newFundamental, stacksBounded, decide_eq_true_eq]
    exact callers_length cs _
  · intro e' h
    simp only [WithStack, wStack, Option.some.injEq] at h
    subst h
    simp only [stacksBounded, Bool.and_eq_true, decide_eq_true_eq]
    exact ⟨callers_length cs _, he⟩
  · intro e' h
    rw [Wrap] at h
    cases hs : (stackAux e).isSome with
    | true =>
        rw [wrap_pos cs e m 1 hs, Option.some.injEq] at h
        subst h
        simpa [stacksBounded] using he
    | false =>
        rw [wrap_neg cs e m 1 hs, Option.some.injEq] at h
        subst h
        simp only [stacksBounded, Bool.and_eq_true, decide_eq_true_eq]
        exact ⟨callers_length cs _, by simpa [stacksBounded] using he⟩

/-- Witness for C8 on the empty ambient call stack and a foreign error. -/
theorem C8_capture_depth_bound_witness :
    (callers [] 0).length ≤ depth ∧ stacksBounded depth (New [] "t") = true := by
  have H := C8_capture_depth_bound [] 0 "t" "m" (GoErr.foreign "E" "x") rfl
  exact ⟨H.1, H.2.2.1⟩

/-- Helper: no digit character is a newline. -/
theorem digitChar_ne_newline (n : Nat) : Nat.digitChar n ≠ '\n' := by
  match n with
  | 0 | 1 | 2 | 3 | 4 | 5 | 6 | 7 | 8 | 9 | 10 | 11 | 12 | 13 | 14 | 15 => decide
  | k + 16 =>
      intro h
      unfold Nat.digitChar at h
      repeat rw [if_neg (by omega)] at h
      exact absurd h (by decide)

/-- Helper: `Nat.toDigitsCore` only prepends digit characters. -/
theorem toDigitsCore_ne_newline (b : Nat) (f : Nat) :
    ∀ (n : Nat) (ds : List Char), (∀ c ∈ ds, c ≠ '\n') →
      ∀ c ∈ Nat.toDigitsCore b f n ds, c ≠ '\n' := by
  induction f with
  | zero =>
      intro n ds hds c hc
      simpa [Nat.toDigitsCore] using hds c hc
  | succ f ih =>
      intro n ds hds c hc
      simp only [Nat.toDigitsCore] at hc
      have hcons : ∀ c ∈ Nat.digitChar (n % b) :: ds, c ≠ '\n' := by
        intro x hx
        rcases List.mem_cons.1 hx with rfl | hx
        · exact digitChar_ne_newline _
        · exact hds x hx
      split at hc
      · exact hcons c hc
      · exact ih (n / b) (Nat.digitChar (n % b) :: ds) hcons c hc

/-- Helper: the decimal rendering of a natural number has no newline. -/
theorem repr_ne_newline (n : Nat) : ∀ c ∈ (Nat.repr n).data, c ≠ '\n' := by
  intro c hc
  exact toDigitsCore_ne_newline 10 (n + 1) n []
    (by intro x hx; cases hx) c hc

/-- Claim C9: an unresolvable frame renders `unknown` for the short and
detailed forms and `unknown:0` for the combined form; a frame's text
serialization is `"<function> <file>:<line>"` for a resolvable frame (or the
sentinel alone when unresolved), and is newline-free whenever the resolved
name and file are. -/
theorem C9_frame_unknown_and_marshal (tab : SymTab) (f : Frame) (meta : FuncMeta) :
    (tab f.pc = none →
      Frame.format tab f .s false = unknown
      ∧ Frame.format tab f .s true = unknown
      ∧ Frame.format tab f .v false = unknown ++ ":0"
      ∧ Frame.format tab f .v true = unknown ++ ":0"
      ∧ Frame.marshalText tab f = unknown)
    ∧ (tab f.pc = some meta → meta.name ≠ unknown →
      Frame.marshalText tab f =
        meta.name ++ " " ++ meta.file ++ ":" ++ Nat.repr meta.line
      ∧ (('\n' ∉ meta.name.data) → ('\n' ∉ meta.file.data) →
        '\n' ∉ (Frame.marshalText tab f).data)) := by
  constructor
  · intro h
    have hbase : pathBase unknown = unknown := by decide
    refine ⟨?_, ?_, ?_, ?_, ?_⟩ <;>
      simp [Frame.format, Frame.marshalText, Frame.FuncInfo, h, hbase] <;> decide
  · intro h hname
    have hmarshal : Frame.marshalText tab f =
        meta.name ++ " " ++ meta.file ++ ":" ++ Nat.repr meta.line := by
      simp [Frame.marshalText, Frame.FuncInfo, h, hname]
    refine ⟨hmarshal, ?_⟩
    intro h1 h2 hcon
    rw [hmarshal] at hcon
    have hd : (meta.name ++ " " ++ meta.file ++ ":" ++ Nat.repr meta.line).data
        = meta.name.data ++ [' '] ++ meta.file.data ++ [':'] ++ (Nat.repr meta.line).data := rfl
    rw [hd] at hcon
    simp only [List.mem_append, List.mem_singleton] at hcon
    rcases hcon with ((((hc | hc) | hc) | hc) | hc)
    · exact h1 hc
    · exact absurd hc (by decide)
    · exact h2 hc
    · exact absurd hc (by decide)
    · exact repr_ne_newline meta.line _ hc rfl

/-- Witness for C9: a null symbol table for the unresolved branch, and a
one-entry table for the resolved branch. -/
theorem C9_frame_unknown_and_marshal_witness :
    Frame.format (fun _ => none) ⟨0⟩ .s false = unknown
    ∧ Frame.marshalText (fun p => if p = 4 then some ⟨"a/b.go", 7, "pkg.F"⟩ else none) ⟨5⟩
        = "pkg.F" ++ " " ++ "a/b.go" ++ ":" ++ Nat.repr 7 := by
  constructor
  · exact ((C9_frame_unknown_and_marshal (fun _ => none) ⟨0⟩ ⟨"", 0, ""⟩).1 rfl).1
  · exact ((C9_frame_unknown_and_marshal
      (fun p => if p = 4 then some ⟨"a/b.go", 7, "pkg.F"⟩ else none) ⟨5⟩
      ⟨"a/b.go", 7, "pkg.F"⟩).2 (by decide) (by decide)).1

/-- Claim C10: the terminal fallback rule reports a match on nil with a nil
replacement, so a rule list ending in `ErrConstantWrap` (with no earlier rule
matching nil) maps nil to nil. -/
theorem C10_const_wrap_nil (cs : List Frame) (m : String)
    (rules : List ErrRemapperFunc) (h : ∀ r ∈ rules, (r none).2 = false) :
    ErrConstantWrap cs m none = (none, true)
    ∧ Remap none (rules ++ [ErrConstantWrap cs m]) = none := by
  refine ⟨rfl, ?_⟩
  induction rules with
  | nil => rfl
  | cons r rest ih =>
      rw [List.cons_append,
        Remap_cons_of_not_matched none r _ (h r (List.mem_cons_self r rest))]
      exact ih (fun q hq => h q (List.mem_cons_of_mem r hq))

/-- Witness for C10 with an empty preceding rule list. -/
theorem C10_const_wrap_nil_witness :
    ErrConstantWrap [] "m" none = (none, true)
    ∧ Remap none ([] ++ [ErrConstantWrap [] "m"]) = none :=
  C10_const_wrap_nil [] "m" [] (by intro r hr; cases hr)

end GoErrors
